import Mathlib

/-!
Verification development for the RAG retrieval engine of the bigcontest2025
repository: text chunking (DataIngestionPipeline.chunk_text), the embedding
encoder contract (EmbeddingService.encode), the FAISS-backed vector store
(VectorStore.add_document, add_documents, search, save, load, get_stats,
clear) and the record ingestion pipeline (ingest_json_records).

Numbers are modelled exactly: embedding coordinates, distances and scores
are rationals; Python lists become Lean lists; Python dicts become ordered
association lists; the FAISS IndexFlatL2 structure is modelled as the list
of stored vectors, searched exactly by squared L2 distance with a stable
sort (ascending distance).
-/

namespace BigContest

/-- Embedding vector: a list of exact rational coordinates. -/
abbrev Vec := List ℚ

/-- JSON-like scalar values appearing in metadata dictionaries and records. -/
inductive JVal where
  | s : String → JVal
  | i : Int → JVal
  | b : Bool → JVal
  | null : JVal
deriving DecidableEq, Repr

/-- Python dict with string keys, modelled as an insertion-ordered association list. -/
abbrev Metadata := List (String × JVal)

/-- An input record for ingest_json_records: a parsed JSON object. -/
abbrev Record := List (String × JVal)

/-- Errors raised by the embedding service (ValueError on an empty batch,
or any failure inside the model encode call). -/
inductive EncError where
  | emptyBatch
  | modelFailure
deriving DecidableEq, Repr

/-! ## Chunker (DataIngestionPipeline.chunk_text)

The Python loop is

    if len(text) <= self.chunk_size: return [text]
    chunks = []; start = 0
    while start < len(text):
        end = start + self.chunk_size
        chunks.append(text[start:end])
        start = end - self.chunk_overlap
    return chunks

`start` is a Python int (it can go negative when overlap exceeds
chunk_size), so it is modelled as an Int, and slicing uses the Python
slice-bound normalization. The while loop is modelled with explicit fuel:
`none` means the fuel ran out, i.e. the loop did not terminate within the
given number of iterations. -/

/-- Python slice-bound normalization for a sequence of length `len`:
negative indices count from the end, and the result is clamped to
`[0, len]`. -/
def pyIdx (len : Nat) (i : Int) : Nat :=
  (min (if i < 0 then i + len else i) (len : Int)).toNat

/-- Python slice `l[a:b]` on a list of characters. -/
def pySlice (l : List Char) (a b : Int) : List Char :=
  (l.take (pyIdx l.length b)).drop (pyIdx l.length a)

/-- One pass of the chunking while loop, with fuel. Returns `none` when the
fuel is exhausted before the loop condition `start < len(text)` fails. -/
def chunkLoop (cs ov : Nat) (text : List Char) : Nat → Int → Option (List String)
  | 0, _ => none
  | fuel + 1, start =>
    if start < (text.length : Int) then
      match chunkLoop cs ov text fuel (start + (cs : Int) - (ov : Int)) with
      | none => none
      | some rest => some (String.mk (pySlice text start (start + (cs : Int))) :: rest)
    else
      some []

/-- DataIngestionPipeline.chunk_text with explicit fuel for the while loop. -/
def chunkTextFuel (cs ov : Nat) (text : String) (fuel : Nat) : Option (List String) :=
  if text.length ≤ cs then some [text] else chunkLoop cs ov text.data fuel 0

/-- Start offsets 0, s, 2s, ... (stride s) strictly below `len`. -/
def specStarts (stride len st : Nat) : List Nat :=
  if h : 0 < stride ∧ st < len then st :: specStarts stride len (st + stride)
  else []
termination_by len - st
decreasing_by omega

/-- The chunk list described by the spec: the whole text if it fits in one
chunk, else the slices of length `cs` taken at starts 0, s, 2s, ... with
stride `s = cs - ov`. -/
def chunkSpec (cs ov : Nat) (text : String) : List String :=
  if text.length ≤ cs then [text]
  else (specStarts (cs - ov) text.data.length 0).map
    (fun st => String.mk ((text.data.drop st).take cs))

/-! Helper lemmas for the chunker. -/

lemma pyIdx_natCast (len n : Nat) : pyIdx len (n : Int) = min n len := by
  unfold pyIdx
  rw [if_neg (by omega)]
  omega

lemma pySlice_nonneg (l : List Char) (st cs : Nat) :
    pySlice l (st : Int) ((st : Int) + (cs : Int)) = (l.drop st).take cs := by
  have hcast : (st : Int) + (cs : Int) = ((st + cs : Nat) : Int) := by push_cast; ring
  unfold pySlice
  rw [hcast, pyIdx_natCast, pyIdx_natCast]
  rcases le_or_lt st l.length with hle | hlt
  · rw [min_eq_left hle, List.drop_take]
    apply List.take_eq_take.mpr
    simp only [List.length_drop]
    omega
  · rw [min_eq_right (by omega : l.length ≤ st + cs), min_eq_right (le_of_lt hlt)]
    simp [List.drop_eq_nil_of_le (le_of_lt hlt)]

lemma chunkLoop_eq_specStarts (cs ov : Nat) (text : List Char) (hov : ov < cs) :
    ∀ fuel st : Nat, text.length - st < fuel →
      chunkLoop cs ov text fuel (st : Int) =
        some ((specStarts (cs - ov) text.length st).map
          (fun k => String.mk ((text.drop k).take cs))) := by
  intro fuel
  induction fuel with
  | zero => intro st h; omega
  | succ n ih =>
    intro st h
    by_cases hst : st < text.length
    · have hcond : (st : Int) < (text.length : Int) := by exact_mod_cast hst
      have hstep : (st : Int) + (cs : Int) - (ov : Int) = ((st + (cs - ov) : Nat) : Int) := by
        push_cast; omega
      have hrec := ih (st + (cs - ov)) (by omega)
      rw [chunkLoop, if_pos hcond, hstep, hrec]
      have hspec : specStarts (cs - ov) text.length st =
          st :: specStarts (cs - ov) text.length (st + (cs - ov)) := by
        rw [specStarts]
        rw [dif_pos ⟨by omega, hst⟩]
      rw [hspec, List.map_cons, pySlice_nonneg]
    · have hcond : ¬ (st : Int) < (text.length : Int) := by exact_mod_cast hst
      rw [chunkLoop, if_neg hcond]
      have hspec : specStarts (cs - ov) text.length st = [] := by
        rw [specStarts]
        rw [dif_neg (by omega)]
      rw [hspec, List.map_nil]

/-- Claim C3: with overlap below chunk_size, chunk_text returns the whole
text when it fits in one chunk, and otherwise the slices of length
chunk_size taken at starts 0, s, 2s, ... with stride s = chunk_size -
overlap until the start passes the end of the text; in particular a
1200-character text with chunk_size 500 and overlap 50 yields exactly the
three slices at offsets 0, 450, 900, of lengths 500, 500 and 300. -/
theorem chunk_text_spec_thm :
    (∀ (cs ov : Nat) (text : String), ov < cs →
      chunkTextFuel cs ov text (text.length + 1) = some (chunkSpec cs ov text)) ∧
    (∀ t : String, t.length = 1200 →
      chunkTextFuel 500 50 t 1201 =
        some [String.mk (t.data.take 500),
              String.mk ((t.data.drop 450).take 500),
              String.mk ((t.data.drop 900).take 500)] ∧
      (chunkSpec 500 50 t).map String.length = [500, 500, 300]) := by
  have hmain : ∀ (cs ov : Nat) (text : String), ov < cs →
      chunkTextFuel cs ov text (text.length + 1) = some (chunkSpec cs ov text) := by
    intro cs ov text hov
    unfold chunkTextFuel chunkSpec
    by_cases hfit : text.length ≤ cs
    · rw [if_pos hfit, if_pos hfit]
    · rw [if_neg hfit, if_neg hfit]
      have hlen : text.data.length = text.length := rfl
      have hstep := chunkLoop_eq_specStarts cs ov text.data hov (text.length + 1) 0
        (by rw [hlen]; omega)
      simpa using hstep
  refine ⟨hmain, ?_⟩
  intro t ht
  have hdata : t.data.length = 1200 := ht
  have h1 := hmain 500 50 t (by omega)
  have hstarts : specStarts 450 1200 0 = [0, 450, 900] := by
    rw [specStarts, dif_pos (by omega), specStarts, dif_pos (by omega),
        specStarts, dif_pos (by omega), specStarts, dif_neg (by omega)]
  have hspec : chunkSpec 500 50 t =
      [String.mk (t.data.take 500),
       String.mk ((t.data.drop 450).take 500),
       String.mk ((t.data.drop 900).take 500)] := by
    unfold chunkSpec
    rw [if_neg (by omega), hdata, hstarts]
    simp
  constructor
  · rw [ht] at h1
    rw [h1, hspec]
  · rw [hspec]
    simp only [List.map_cons, List.map_nil]
    have hl1 : (String.mk (t.data.take 500)).length = 500 := by
      show (t.data.take 500).length = 500
      simp [hdata]
    have hl2 : (String.mk ((t.data.drop 450).take 500)).length = 500 := by
      show ((t.data.drop 450).take 500).length = 500
      simp [hdata]
    have hl3 : (String.mk ((t.data.drop 900).take 500)).length = 300 := by
      show ((t.data.drop 900).take 500).length = 300
      simp [hdata]
    rw [hl1, hl2, hl3]

/-- Witness for chunk_text_spec_thm at a concrete input: overlap 1,
chunk_size 3, text of five characters. -/
theorem chunk_text_spec_thm_witness :
    (1 < 3 ∧ chunkTextFuel 3 1 "abcde" 6 = some (chunkSpec 3 1 "abcde")) ∧
      chunkSpec 3 1 "abcde" = ["abc", "cde", "e"] := by
  refine ⟨⟨by decide, chunk_text_spec_thm.1 3 1 "abcde" (by decide)⟩, ?_⟩
  have hs : specStarts 2 5 0 = [0, 2, 4] := by
    rw [specStarts, dif_pos (by omega), specStarts, dif_pos (by omega),
        specStarts, dif_pos (by omega), specStarts, dif_neg (by omega)]
  unfold chunkSpec
  rw [if_neg (by decide)]
  show (specStarts 2 5 0).map (fun st => String.mk (("abcde".data.drop st).take 3)) =
    ["abc", "cde", "e"]
  rw [hs]
  decide

/-- Claim C4: the code has no guard at all for overlap ≥ chunk_size. When
overlap ≥ chunk_size and the text is longer than one chunk, the loop start
never advances past zero, so the while loop never terminates: for every
fuel bound the loop is still running. The spec requires a
ConfigurationError instead; the code diverges. -/
theorem chunk_text_degenerate_loop (cs ov : Nat) (text : String) (fuel : Nat)
    (hov : cs ≤ ov) (hlong : cs < text.length) :
    chunkTextFuel cs ov text fuel = none := by
  unfold chunkTextFuel
  rw [if_neg (by omega)]
  have hlen : 0 < text.data.length := by
    have : text.length = text.data.length := rfl
    omega
  have key : ∀ (f : Nat) (st : Int), st ≤ 0 → chunkLoop cs ov text.data f st = none := by
    intro f
    induction f with
    | zero => intro st _; rfl
    | succ n ih =>
      intro st hst
      have hcond : st < (text.data.length : Int) := by
        have : (0 : Int) < (text.data.length : Int) := by exact_mod_cast hlen
        omega
      rw [chunkLoop, if_pos hcond, ih (st + (cs : Int) - (ov : Int)) (by
        have : (cs : Int) ≤ (ov : Int) := by exact_mod_cast hov
        omega)]
  exact key fuel 0 le_rfl

/-- Witness for chunk_text_degenerate_loop: chunk_size 2, overlap 2, a
three-character text, 25 iterations of fuel. -/
theorem chunk_text_degenerate_loop_witness :
    (2 ≤ 2 ∧ 2 < "abc".length) ∧ chunkTextFuel 2 2 "abc" 25 = none :=
  ⟨⟨by decide, by decide⟩, chunk_text_degenerate_loop 2 2 "abc" 25 (by decide) (by decide)⟩

/-! ## VectorStore (vector_store.py)

The store owns the FAISS index (modelled as the list of stored vectors;
`none` is the uninitialized state), the parallel documents and metadata
lists, the embedding dimension and the configured store path. The
embedding service is passed in as a function; a batch encode returns
either the list of vectors or an EncError (a raised exception). Mutating
operations return the post-state together with the error, mirroring the
fact that in Python the mutations made before a raise persist. -/

structure VectorStore where
  dimension : Nat
  store_path : String
  index : Option (List Vec)
  documents : List String
  metadata : List Metadata
deriving DecidableEq, Repr

/-- Number of entries held by the FAISS index (index.ntotal; 0 when
uninitialized). -/
def totalCount (s : VectorStore) : Nat := (s.index.getD []).length

/-- The invariant claimed by the spec: the documents list, the metadata
list and the index entry count agree. -/
def consistent (s : VectorStore) : Prop :=
  s.documents.length = s.metadata.length ∧ s.documents.length = totalCount s

instance (s : VectorStore) : Decidable (consistent s) := by
  unfold consistent; infer_instance

/-- EmbeddingService.encode: raises ValueError on an empty batch, else
maps the model over the batch. -/
def encodeBatch (model : String → Vec) (texts : List String) : Except EncError (List Vec) :=
  if texts.isEmpty then .error .emptyBatch else .ok (texts.map model)

/-- VectorStore.add_document: initialize the index if absent, encode the
single text, append the vector to the index and the text and metadata (an
empty dict when absent) to the parallel lists; return the assigned id,
the prior length of the documents list, as a string. -/
def addDocument (s : VectorStore) (encSingle : String → Except EncError Vec)
    (text : String) (md : Option Metadata) : VectorStore × Except EncError String :=
  let s1 := if s.index.isSome then s else { s with index := some [] }
  match encSingle text with
  | .error e => (s1, .error e)
  | .ok v =>
    ({ s1 with
        index := some (s1.index.getD [] ++ [v])
        documents := s1.documents ++ [text]
        metadata := s1.metadata ++ [md.getD []] },
      .ok (toString s1.documents.length))

/-- Metadata entries appended by add_documents: the given metadatas when
that argument is truthy (not None and not empty), one empty dict per text
otherwise. -/
def mdExt (texts : List String) (metadatas : Option (List Metadata)) : List Metadata :=
  match metadatas with
  | some ms => if ms.isEmpty then List.replicate texts.length [] else ms
  | none => List.replicate texts.length []

/-- VectorStore.add_documents: return at once on an empty texts list;
otherwise initialize the index if absent, encode the whole batch in one
call, append the vectors to the index and extend the documents list, and
extend the metadata list as described by mdExt. -/
def addDocuments (s : VectorStore) (enc : List String → Except EncError (List Vec))
    (texts : List String) (metadatas : Option (List Metadata)) :
    VectorStore × Option EncError :=
  if texts.isEmpty then (s, none)
  else
    let s1 := if s.index.isSome then s else { s with index := some [] }
    match enc texts with
    | .error e => (s1, some e)
    | .ok embs =>
      ({ s1 with
          index := some (s1.index.getD [] ++ embs)
          documents := s1.documents ++ texts
          metadata := s1.metadata ++ mdExt texts metadatas },
        none)

/-- VectorStore.clear: re-create an empty index and drop both parallel
lists. -/
def clear (s : VectorStore) : VectorStore :=
  { s with index := some [], documents := [], metadata := [] }

/-- On-disk artifacts under the configured store path: the serialized
FAISS index file and the pickled side-table holding the documents and
metadata lists. `none` models a missing (or unreadable) artifact. -/
structure Disk where
  indexFile : Option (List Vec)
  sideTable : Option (List String × List Metadata)
deriving DecidableEq, Repr

/-- VectorStore.save: a no-op when the index is uninitialized, else write
both artifacts. -/
def save (s : VectorStore) (d : Disk) : Disk :=
  match s.index with
  | none => d
  | some vecs => ⟨some vecs, some (s.documents, s.metadata)⟩

/-- VectorStore.load: when the index file is missing, create a fresh empty
index (in-memory lists untouched); when reading either artifact fails,
fall back the same way; on success replace the index and both lists. -/
def load (s : VectorStore) (d : Disk) : VectorStore :=
  match d.indexFile with
  | none => { s with index := some [] }
  | some vecs =>
    match d.sideTable with
    | none => { s with index := some [] }
    | some t => { s with index := some vecs, documents := t.1, metadata := t.2 }

/-- A value stored in the statistics dictionary. -/
inductive StatVal where
  | n : Nat → StatVal
  | b : Bool → StatVal
  | s : String → StatVal
deriving DecidableEq, Repr

/-- VectorStore.get_stats: three entries in the uninitialized state, four
(with the store path) once an index exists. -/
def getStats (s : VectorStore) : List (String × StatVal) :=
  match s.index with
  | none =>
      [("total_documents", .n 0), ("dimension", .n s.dimension), ("loaded", .b false)]
  | some vecs =>
      [("total_documents", .n vecs.length), ("dimension", .n s.dimension),
       ("loaded", .b true), ("store_path", .s s.store_path)]

/-- A fresh instance configured like `s`: same dimension and store path,
uninitialized index, empty lists. -/
def freshStore (s : VectorStore) : VectorStore :=
  { dimension := s.dimension, store_path := s.store_path,
    index := none, documents := [], metadata := [] }

/-- Claim C10: add_documents on an empty texts list is a complete no-op:
the store (index included) is returned unchanged with no error, whatever
the encoder does — in particular with the real batch encoder, which
raises on an empty batch. -/
theorem add_documents_empty_noop :
    (∀ (s : VectorStore) (enc : List String → Except EncError (List Vec))
      (ms : Option (List Metadata)), addDocuments s enc [] ms = (s, none)) ∧
    (∀ (s : VectorStore) (model : String → Vec) (ms : Option (List Metadata)),
      addDocuments s (encodeBatch model) [] ms = (s, none)) :=
  ⟨fun _ _ _ => rfl, fun _ _ _ => rfl⟩

/-- Claim C5: when the batch encode fails, add_documents leaves the
documents and metadata lists exactly as they were (the error is raised
before any list mutation). -/
theorem add_documents_atomic (s : VectorStore)
    (enc : List String → Except EncError (List Vec))
    (texts : List String) (ms : Option (List Metadata)) (e : EncError)
    (henc : enc texts = .error e) :
    (addDocuments s enc texts ms).1.documents = s.documents ∧
    (addDocuments s enc texts ms).1.metadata = s.metadata := by
  unfold addDocuments
  by_cases hempty : texts.isEmpty
  · rw [if_pos hempty]; exact ⟨rfl, rfl⟩
  · rw [if_neg hempty]
    by_cases hidx : s.index.isSome
    · rw [if_pos hidx, henc]; exact ⟨rfl, rfl⟩
    · rw [if_neg hidx, henc]; exact ⟨rfl, rfl⟩

/-- Witness for add_documents_atomic on a concrete store and an encoder
that fails. -/
theorem add_documents_atomic_witness :
    ((fun _ : List String => (Except.error EncError.modelFailure : Except EncError (List Vec)))
        ["a"] = .error EncError.modelFailure) ∧
    (addDocuments ⟨3, "p", none, ["d0"], [[]]⟩
        (fun _ => .error EncError.modelFailure) ["a"] none).1.documents = ["d0"] ∧
    (addDocuments ⟨3, "p", none, ["d0"], [[]]⟩
        (fun _ => .error EncError.modelFailure) ["a"] none).1.metadata = [[]] :=
  ⟨rfl,
    add_documents_atomic ⟨3, "p", none, ["d0"], [[]]⟩
      (fun _ => .error EncError.modelFailure) ["a"] none EncError.modelFailure rfl⟩

/-- Claim C6: saving to a clean store location and loading into a fresh
instance configured the same way reproduces the total count and both
lists in order. In the uninitialized state save writes nothing, so the
hypothesis records that such a (reachable) state holds no documents. -/
theorem save_load_roundtrip (s : VectorStore)
    (h : s.index = none → s.documents = [] ∧ s.metadata = []) :
    totalCount (load (freshStore s) (save s ⟨none, none⟩)) = totalCount s ∧
    (load (freshStore s) (save s ⟨none, none⟩)).documents = s.documents ∧
    (load (freshStore s) (save s ⟨none, none⟩)).metadata = s.metadata := by
  rcases hidx : s.index with _ | vecs
  · have hd := h hidx
    unfold save load freshStore totalCount
    rw [hidx]
    exact ⟨rfl, hd.1.symm, hd.2.symm⟩
  · unfold save load freshStore totalCount
    rw [hidx]
    exact ⟨rfl, rfl, rfl⟩

/-- Witness for save_load_roundtrip on a one-document store. -/
theorem save_load_roundtrip_witness :
    totalCount (load (freshStore ⟨2, "p", some [[1, 0]], ["d"], [[]]⟩)
        (save ⟨2, "p", some [[1, 0]], ["d"], [[]]⟩ ⟨none, none⟩)) =
      totalCount ⟨2, "p", some [[1, 0]], ["d"], [[]]⟩ ∧
    (load (freshStore ⟨2, "p", some [[1, 0]], ["d"], [[]]⟩)
        (save ⟨2, "p", some [[1, 0]], ["d"], [[]]⟩ ⟨none, none⟩)).documents = ["d"] ∧
    (load (freshStore ⟨2, "p", some [[1, 0]], ["d"], [[]]⟩)
        (save ⟨2, "p", some [[1, 0]], ["d"], [[]]⟩ ⟨none, none⟩)).metadata = [[]] :=
  save_load_roundtrip ⟨2, "p", some [[1, 0]], ["d"], [[]]⟩ (by simp)

/-! ## Search (VectorStore.search)

FAISS IndexFlatL2 stores raw vectors and performs exact k-nearest-neighbor
retrieval by squared L2 distance, returning neighbors in ascending
distance order; this is modelled as a stable sort of all (index, squared
distance) pairs followed by taking the first k. -/

/-- Squared L2 distance between two vectors. -/
def sqDist (u v : Vec) : ℚ := (List.zipWith (fun a b => (a - b) * (a - b)) u v).sum

/-- All (position, squared distance to the query) pairs of the index. -/
def distPairs (vecs : List Vec) (q : Vec) : List (Nat × ℚ) :=
  (List.range vecs.length).map (fun i => (i, sqDist (vecs.getD i []) q))

/-- IndexFlatL2.search: the k nearest stored vectors, in ascending order
of squared L2 distance. -/
def faissSearch (vecs : List Vec) (q : Vec) (k : Nat) : List (Nat × ℚ) :=
  (List.insertionSort (fun a b : Nat × ℚ => a.2 ≤ b.2) (distPairs vecs q)).take k

/-- One entry of the result list of VectorStore.search. -/
structure SearchResult where
  text : String
  metadata : Metadata
  score : ℚ
  doc_id : Nat
deriving DecidableEq, Repr

/-- VectorStore.search: empty result when the index is uninitialized or
empty; otherwise encode the query, retrieve the min(top_k, ntotal)
nearest neighbors, convert each squared distance d to the score
1 / (1 + d), and keep those with score at or above the threshold, tagged
with their stored text, metadata, score and id. -/
def search (s : VectorStore) (enc : String → Except EncError Vec) (query : String)
    (top_k : Nat) (threshold : ℚ) : Except EncError (List SearchResult) :=
  match s.index with
  | none => .ok []
  | some vecs =>
    if vecs.length = 0 then .ok []
    else
      match enc query with
      | .error e => .error e
      | .ok q =>
        .ok (((faissSearch vecs q (min top_k vecs.length)).filter
            (fun p => decide (threshold ≤ 1 / (1 + p.2)))).map
          (fun p => ⟨s.documents.getD p.1 "", s.metadata.getD p.1 [],
            1 / (1 + p.2), p.1⟩))

lemma sqDist_nonneg : ∀ u v : Vec, 0 ≤ sqDist u v := by
  intro u
  induction u with
  | nil => intro v; simp [sqDist]
  | cons a u ih =>
    intro v
    cases v with
    | nil => simp [sqDist]
    | cons b v =>
      have hstep : sqDist (a :: u) (b :: v) = (a - b) * (a - b) + sqDist u v := by
        simp [sqDist]
      rw [hstep]
      have h1 : (0 : ℚ) ≤ (a - b) * (a - b) := mul_self_nonneg _
      have h2 := ih v
      linarith

lemma mem_distPairs (vecs : List Vec) (q : Vec) (p : Nat × ℚ)
    (hp : p ∈ distPairs vecs q) : p.2 = sqDist (vecs.getD p.1 []) q := by
  unfold distPairs at hp
  rcases List.mem_map.mp hp with ⟨i, _, hip⟩
  rw [← hip]

lemma mem_faissSearch (vecs : List Vec) (q : Vec) (k : Nat) (p : Nat × ℚ)
    (hp : p ∈ faissSearch vecs q k) : p.2 = sqDist (vecs.getD p.1 []) q := by
  unfold faissSearch at hp
  have h1 : p ∈ List.insertionSort (fun a b : Nat × ℚ => a.2 ≤ b.2) (distPairs vecs q) :=
    List.mem_of_mem_take hp
  have h2 : p ∈ distPairs vecs q :=
    (List.perm_insertionSort (fun a b : Nat × ℚ => a.2 ≤ b.2) (distPairs vecs q)).mem_iff.mp h1
  exact mem_distPairs vecs q p h2

lemma faissSearch_sorted (vecs : List Vec) (q : Vec) (k : Nat) :
    List.Pairwise (fun a b : Nat × ℚ => a.2 ≤ b.2) (faissSearch vecs q k) := by
  haveI : IsTotal (Nat × ℚ) (fun a b : Nat × ℚ => a.2 ≤ b.2) :=
    ⟨fun a b => le_total a.2 b.2⟩
  haveI : IsTrans (Nat × ℚ) (fun a b : Nat × ℚ => a.2 ≤ b.2) :=
    ⟨fun _ _ _ hab hbc => le_trans hab hbc⟩
  have hs := List.sorted_insertionSort (fun a b : Nat × ℚ => a.2 ≤ b.2) (distPairs vecs q)
  exact List.Pairwise.sublist (List.take_sublist _ _) hs

/-- Claim C7: search on an uninitialized or empty index returns the empty
list and raises nothing, for every query, top_k and threshold, and even
when the encoder itself would fail. -/
theorem search_empty_returns_nil (s : VectorStore)
    (enc : String → Except EncError Vec) (query : String) (top_k : Nat)
    (threshold : ℚ) (h : totalCount s = 0) :
    search s enc query top_k threshold = .ok [] := by
  unfold search
  rcases hidx : s.index with _ | vecs
  · rfl
  · have hlen : vecs.length = 0 := by
      unfold totalCount at h
      rw [hidx] at h
      exact h
    simp [hlen]

/-- Witness for search_empty_returns_nil: an uninitialized store and an
encoder that always fails. -/
theorem search_empty_returns_nil_witness :
    totalCount ⟨2, "p", none, [], []⟩ = 0 ∧
    search ⟨2, "p", none, [], []⟩ (fun _ => .error EncError.modelFailure) "q" 5 (7 / 10) =
      .ok [] :=
  ⟨rfl, search_empty_returns_nil ⟨2, "p", none, [], []⟩
    (fun _ => .error EncError.modelFailure) "q" 5 (7 / 10) rfl⟩

/-- Claim C2 (amended): every result of search carries the score
1 / (1 + d) for the squared L2 distance d of its neighbor to the query
vector, scores meet the threshold inclusively, at most
min(top_k, ntotal) results come back, and the list is sorted by
non-increasing score (ties between equidistant neighbors are possible, so
the descent is not strict). -/
theorem search_results_spec (s : VectorStore) (enc : String → Except EncError Vec)
    (query : String) (top_k : Nat) (threshold : ℚ) (vecs : List Vec) (q : Vec)
    (res : List SearchResult)
    (hidx : s.index = some vecs) (hq : enc query = .ok q)
    (hres : search s enc query top_k threshold = .ok res) :
    (∀ r ∈ res, r.score = 1 / (1 + sqDist (vecs.getD r.doc_id []) q)) ∧
    (∀ r ∈ res, threshold ≤ r.score) ∧
    res.length ≤ min top_k vecs.length ∧
    List.Sorted (fun a b : SearchResult => b.score ≤ a.score) res := by
  unfold search at hres
  rw [hidx] at hres
  dsimp only at hres
  by_cases hn : vecs.length = 0
  · rw [if_pos hn] at hres
    have : res = [] := by
      cases hres
      rfl
    subst this
    refine ⟨by simp, by simp, by simp, List.Pairwise.nil⟩
  · rw [if_neg hn, hq] at hres
    set k := min top_k vecs.length with hk
    set hits := faissSearch vecs q k with hhits
    set filtered := hits.filter (fun p => decide (threshold ≤ 1 / (1 + p.2))) with hfil
    set f : Nat × ℚ → SearchResult := fun p =>
      ⟨s.documents.getD p.1 "", s.metadata.getD p.1 [], 1 / (1 + p.2), p.1⟩ with hf
    have hreseq : res = filtered.map f := by
      cases hres
      rfl
    have hmemhits : ∀ p ∈ filtered, p ∈ hits := fun p hp => (List.mem_filter.mp hp).1
    have hdist : ∀ p ∈ filtered, p.2 = sqDist (vecs.getD p.1 []) q := fun p hp =>
      mem_faissSearch vecs q k p (hmemhits p hp)
    refine ⟨?_, ?_, ?_, ?_⟩
    · intro r hr
      rw [hreseq] at hr
      rcases List.mem_map.mp hr with ⟨p, hp, hpr⟩
      rw [← hpr]
      show 1 / (1 + p.2) = 1 / (1 + sqDist (vecs.getD p.1 []) q)
      rw [hdist p hp]
    · intro r hr
      rw [hreseq] at hr
      rcases List.mem_map.mp hr with ⟨p, hp, hpr⟩
      have hcond := (List.mem_filter.mp hp).2
      have hth : threshold ≤ 1 / (1 + p.2) := of_decide_eq_true hcond
      rw [← hpr]
      exact hth
    · rw [hreseq, List.length_map]
      calc filtered.length ≤ hits.length := List.length_filter_le _ _
        _ ≤ k := by
          rw [hhits]
          unfold faissSearch
          exact List.length_take_le _ _
    · rw [hreseq]
      have hsorted : List.Pairwise (fun a b : Nat × ℚ => a.2 ≤ b.2) filtered :=
        List.Pairwise.sublist (List.filter_sublist _) (faissSearch_sorted vecs q k)
      have hnn : ∀ p ∈ filtered, (0 : ℚ) ≤ p.2 := by
        intro p hp
        rw [hdist p hp]
        exact sqDist_nonneg _ _
      show List.Pairwise (fun a b : SearchResult => b.score ≤ a.score) (filtered.map f)
      apply List.pairwise_map.mpr
      refine List.Pairwise.imp_of_mem ?_ hsorted
      intro a b ha hb hab
      show (f b).score ≤ (f a).score
      show 1 / (1 + b.2) ≤ 1 / (1 + a.2)
      have h0a : (0 : ℚ) < 1 + a.2 := by
        have := hnn a ha
        linarith
      exact one_div_le_one_div_of_le h0a (by linarith)

/-- Witness for search_results_spec on a concrete two-document store. -/
theorem search_results_spec_witness :
    ((⟨1, "p", some [[0], [3]], ["a", "b"], [[], []]⟩ : VectorStore).index =
        some [[0], [3]] ∧
      (fun _ : String => (Except.ok ([1] : Vec) : Except EncError Vec)) "q" = .ok [1] ∧
      search ⟨1, "p", some [[0], [3]], ["a", "b"], [[], []]⟩
        (fun _ => .ok [1]) "q" 5 (1 / 10) = .ok
          [⟨"a", [], 1 / 2, 0⟩, ⟨"b", [], 1 / 5, 1⟩]) ∧
    ((∀ r ∈ [(⟨"a", [], 1 / 2, 0⟩ : SearchResult), ⟨"b", [], 1 / 5, 1⟩],
        r.score = 1 / (1 + sqDist ([[0], [3]].getD r.doc_id []) [1])) ∧
      (∀ r ∈ [(⟨"a", [], 1 / 2, 0⟩ : SearchResult), ⟨"b", [], 1 / 5, 1⟩],
        (1 : ℚ) / 10 ≤ r.score) ∧
      ([(⟨"a", [], 1 / 2, 0⟩ : SearchResult), ⟨"b", [], 1 / 5, 1⟩].length ≤
        min 5 [[0], [3]].length) ∧
      List.Sorted (fun a b : SearchResult => b.score ≤ a.score)
        [⟨"a", [], 1 / 2, 0⟩, ⟨"b", [], 1 / 5, 1⟩]) :=
  by
  have hres : search ⟨1, "p", some [[0], [3]], ["a", "b"], [[], []]⟩
      (fun _ => .ok [1]) "q" 5 (1 / 10) = .ok
        [⟨"a", [], 1 / 2, 0⟩, ⟨"b", [], 1 / 5, 1⟩] := by
    norm_num [search, faissSearch, distPairs, sqDist, List.range_succ,
      List.insertionSort, List.orderedInsert, List.filter, List.getD]
  exact ⟨⟨rfl, rfl, hres⟩,
    search_results_spec ⟨1, "p", some [[0], [3]], ["a", "b"], [[], []]⟩
      (fun _ => .ok [1]) "q" 5 (1 / 10) [[0], [3]] [1]
      [⟨"a", [], 1 / 2, 0⟩, ⟨"b", [], 1 / 5, 1⟩] rfl rfl hres⟩

/-- Counterexample to the strict part of claim C2: a store holding two
identical vectors returns two results with equal scores, so the result
list is not sorted by strictly descending score. -/
theorem search_strict_order_cex :
    search ⟨1, "p", some [[0], [0]], ["a", "b"], [[], []]⟩
        (fun _ => .ok [0]) "q" 2 0 = .ok [⟨"a", [], 1, 0⟩, ⟨"b", [], 1, 1⟩] ∧
    ¬ List.Pairwise (fun a b : SearchResult => b.score < a.score)
        [(⟨"a", [], 1, 0⟩ : SearchResult), ⟨"b", [], 1, 1⟩] := by
  constructor
  · norm_num [search, faissSearch, distPairs, sqDist, List.range_succ,
      List.insertionSort, List.orderedInsert, List.filter, List.getD]
  · intro hpair
    have hlt := List.rel_of_pairwise_cons hpair (List.mem_singleton.mpr rfl)
    have : (1 : ℚ) < 1 := hlt
    exact absurd this (lt_irrefl 1)

/-- Claim C9 (amended): get_stats always carries the total document count,
the embedding dimension and the loaded flag, but the store path entry is
present exactly when an index is initialized; in the uninitialized state
the dictionary has only the three entries. -/
theorem get_stats_fields (s : VectorStore) :
    (getStats s).lookup "total_documents" = some (.n (totalCount s)) ∧
    (getStats s).lookup "dimension" = some (.n s.dimension) ∧
    (getStats s).lookup "loaded" = some (.b s.index.isSome) ∧
    (getStats s).lookup "store_path" =
      (if s.index.isSome then some (.s s.store_path) else none) := by
  rcases hidx : s.index with _ | vecs
  · unfold getStats totalCount
    rw [hidx]
    exact ⟨rfl, rfl, rfl, rfl⟩
  · unfold getStats totalCount
    rw [hidx]
    exact ⟨rfl, rfl, rfl, rfl⟩

/-- Counterexample to claim C9 as stated: in the uninitialized state the
statistics dictionary has no store_path entry at all (only three keys),
even though the claim requires all four fields in every state. -/
theorem get_stats_store_path_cex :
    (getStats ⟨4, "sp", none, [], []⟩).lookup "store_path" = none ∧
    (getStats ⟨4, "sp", none, [], []⟩).length = 3 :=
  ⟨rfl, rfl⟩

/-! ## The parallel-array invariant (claim C1) -/

/-- A mutating operation of the store (search and get_stats do not touch
the state; save writes only to disk). -/
inductive StoreOp where
  | addDoc (enc : String → Except EncError Vec) (text : String) (md : Option Metadata)
  | addDocs (enc : List String → Except EncError (List Vec))
      (texts : List String) (ms : Option (List Metadata))
  | clearOp
  | loadOp (d : Disk)

/-- Post-state of one operation. -/
def applyOp (s : VectorStore) : StoreOp → VectorStore
  | .addDoc enc t md => (addDocument s enc t md).1
  | .addDocs enc ts ms => (addDocuments s enc ts ms).1
  | .clearOp => clear s
  | .loadOp d => load s d

/-- Side conditions under which an operation keeps the three counts in
lock-step: a supplied non-empty metadatas list must match the texts list
in length, a successful batch encode returns one vector per text, and a
load either reads a matching pair of artifacts or falls back to a fresh
index on an instance whose in-memory lists are empty. -/
def opSafe (s : VectorStore) : StoreOp → Prop
  | .addDoc _ _ _ => True
  | .addDocs enc ts ms =>
      (∀ l, ms = some l → l = [] ∨ l.length = ts.length) ∧
      (∀ embs, enc ts = .ok embs → embs.length = ts.length)
  | .clearOp => True
  | .loadOp d =>
      match d.indexFile, d.sideTable with
      | some vecs, some t => vecs.length = t.1.length ∧ t.1.length = t.2.length
      | _, _ => s.documents = [] ∧ s.metadata = []


lemma initIdx_state (s : VectorStore) :
    totalCount (if s.index.isSome then s else { s with index := some [] }) = totalCount s ∧
    (if s.index.isSome then s else { s with index := some [] }).documents = s.documents ∧
    (if s.index.isSome then s else { s with index := some [] }).metadata = s.metadata := by
  by_cases hidx : s.index.isSome
  · rw [if_pos hidx]
    exact ⟨rfl, rfl, rfl⟩
  · rw [if_neg hidx]
    have hn : s.index = none := Option.not_isSome_iff_eq_none.mp hidx
    refine ⟨?_, rfl, rfl⟩
    show ((some ([] : List Vec)).getD []).length = (s.index.getD []).length
    rw [hn]
    rfl

lemma addDocuments_ok (s : VectorStore) (enc : List String → Except EncError (List Vec))
    (texts : List String) (ms : Option (List Metadata)) (embs : List Vec)
    (henc : enc texts = .ok embs) (hne : ¬ texts.isEmpty) :
    (addDocuments s enc texts ms).1 =
      { dimension := s.dimension, store_path := s.store_path,
        index := some (s.index.getD [] ++ embs),
        documents := s.documents ++ texts,
        metadata := s.metadata ++ mdExt texts ms } := by
  unfold addDocuments
  rw [if_neg hne, henc]
  by_cases hidx : s.index.isSome
  · rw [if_pos hidx]
  · rw [if_neg hidx]
    have hn : s.index = none := Option.not_isSome_iff_eq_none.mp hidx
    rw [hn]
    rfl

lemma addDocuments_err (s : VectorStore) (enc : List String → Except EncError (List Vec))
    (texts : List String) (ms : Option (List Metadata)) (e : EncError)
    (henc : enc texts = .error e) (hne : ¬ texts.isEmpty) :
    (addDocuments s enc texts ms).1 =
      (if s.index.isSome then s else { s with index := some [] }) := by
  unfold addDocuments
  rw [if_neg hne, henc]

lemma addDocument_ok (s : VectorStore) (encS : String → Except EncError Vec)
    (t : String) (md : Option Metadata) (v : Vec) (henc : encS t = .ok v) :
    (addDocument s encS t md).1 =
      { dimension := s.dimension, store_path := s.store_path,
        index := some (s.index.getD [] ++ [v]),
        documents := s.documents ++ [t],
        metadata := s.metadata ++ [md.getD []] } := by
  unfold addDocument
  rw [henc]
  by_cases hidx : s.index.isSome
  · rw [if_pos hidx]
  · rw [if_neg hidx]
    have hn : s.index = none := Option.not_isSome_iff_eq_none.mp hidx
    rw [hn]
    rfl

lemma addDocument_err (s : VectorStore) (encS : String → Except EncError Vec)
    (t : String) (md : Option Metadata) (e : EncError) (henc : encS t = .error e) :
    (addDocument s encS t md).1 =
      (if s.index.isSome then s else { s with index := some [] }) := by
  unfold addDocument
  rw [henc]

lemma mdExt_length (texts : List String) (ms : Option (List Metadata))
    (h : ∀ l, ms = some l → l = [] ∨ l.length = texts.length) :
    (mdExt texts ms).length = texts.length := by
  rcases ms with _ | l
  · show (List.replicate texts.length ([] : Metadata)).length = texts.length
    simp
  · show (if l.isEmpty then List.replicate texts.length [] else l).length = texts.length
    by_cases he : l.isEmpty
    · rw [if_pos he]
      simp
    · rw [if_neg he]
      rcases h l rfl with hl | hl
      · subst hl
        exact absurd rfl he
      · exact hl

lemma addDocuments_growth (s : VectorStore)
    (enc : List String → Except EncError (List Vec)) (texts : List String)
    (ms : Option (List Metadata)) (embs : List Vec)
    (henc : enc texts = .ok embs) (hlen : embs.length = texts.length)
    (hms : ∀ l, ms = some l → l = [] ∨ l.length = texts.length) :
    totalCount (addDocuments s enc texts ms).1 = totalCount s + texts.length ∧
    (addDocuments s enc texts ms).1.documents.length =
      s.documents.length + texts.length ∧
    (addDocuments s enc texts ms).1.metadata.length =
      s.metadata.length + texts.length := by
  by_cases hempty : texts.isEmpty
  · have h0 : texts.length = 0 := List.isEmpty_iff_length_eq_zero.mp hempty
    have hs : (addDocuments s enc texts ms).1 = s := by
      unfold addDocuments
      rw [if_pos hempty]
    rw [hs, h0]
    exact ⟨rfl, rfl, rfl⟩
  · rw [addDocuments_ok s enc texts ms embs henc hempty]
    refine ⟨?_, ?_, ?_⟩
    · show (s.index.getD [] ++ embs).length = totalCount s + texts.length
      rw [List.length_append, hlen]
      rfl
    · simp
    · show (s.metadata ++ mdExt texts ms).length = s.metadata.length + texts.length
      rw [List.length_append, mdExt_length texts ms hms]

lemma addDocument_growth (s : VectorStore) (encS : String → Except EncError Vec)
    (t : String) (md : Option Metadata) (v : Vec) (henc : encS t = .ok v) :
    totalCount (addDocument s encS t md).1 = totalCount s + 1 ∧
    (addDocument s encS t md).1.documents.length = s.documents.length + 1 ∧
    (addDocument s encS t md).1.metadata.length = s.metadata.length + 1 := by
  rw [addDocument_ok s encS t md v henc]
  refine ⟨?_, ?_, ?_⟩
  · show (s.index.getD [] ++ [v]).length = totalCount s + 1
    rw [List.length_append]
    rfl
  · simp
  · simp

/-- Claim C1 (amended): every operation keeps the documents list, the
metadata list and the index entry count equal, provided add_documents is
given a metadatas list that is absent, empty, or of matching length, the
encoder yields one vector per text, and load either reads a matching
artifact pair or falls back to a fresh index on an instance with empty
in-memory lists; moreover the two add operations grow all three counts
by exactly the number of texts inserted. -/
theorem store_counts_invariant :
    (∀ (s : VectorStore) (op : StoreOp), consistent s → opSafe s op →
      consistent (applyOp s op)) ∧
    (∀ (s : VectorStore) (enc : List String → Except EncError (List Vec))
      (texts : List String) (ms : Option (List Metadata)) (embs : List Vec),
      enc texts = .ok embs → embs.length = texts.length →
      (∀ l, ms = some l → l = [] ∨ l.length = texts.length) →
      totalCount (addDocuments s enc texts ms).1 = totalCount s + texts.length ∧
      (addDocuments s enc texts ms).1.documents.length =
        s.documents.length + texts.length ∧
      (addDocuments s enc texts ms).1.metadata.length =
        s.metadata.length + texts.length) ∧
    (∀ (s : VectorStore) (encS : String → Except EncError Vec) (t : String)
      (md : Option Metadata) (v : Vec), encS t = .ok v →
      totalCount (addDocument s encS t md).1 = totalCount s + 1 ∧
      (addDocument s encS t md).1.documents.length = s.documents.length + 1 ∧
      (addDocument s encS t md).1.metadata.length = s.metadata.length + 1) := by
  refine ⟨?_, addDocuments_growth, addDocument_growth⟩
  intro s op hcons hsafe
  have hc2 : s.documents.length = (s.index.getD []).length := hcons.2
  rcases op with ⟨enc, t, md⟩ | ⟨enc, ts, ms⟩ | _ | d
  · show consistent (addDocument s enc t md).1
    rcases henc : enc t with e | v
    · rw [addDocument_err s enc t md e henc]
      rcases initIdx_state s with ⟨h1, h2, h3⟩
      exact ⟨by rw [h2, h3]; exact hcons.1, by rw [h2, h1]; exact hcons.2⟩
    · rcases addDocument_growth s enc t md v henc with ⟨g1, g2, g3⟩
      exact ⟨by rw [g2, g3, hcons.1], by rw [g2, g1, hcons.2]⟩
  · show consistent (addDocuments s enc ts ms).1
    rcases henc : enc ts with e | embs
    · by_cases hempty : ts.isEmpty
      · have hs : (addDocuments s enc ts ms).1 = s := by
          unfold addDocuments
          rw [if_pos hempty]
        rw [hs]
        exact hcons
      · rw [addDocuments_err s enc ts ms e henc hempty]
        rcases initIdx_state s with ⟨h1, h2, h3⟩
        exact ⟨by rw [h2, h3]; exact hcons.1, by rw [h2, h1]; exact hcons.2⟩
    · rcases addDocuments_growth s enc ts ms embs henc (hsafe.2 embs henc) hsafe.1 with
        ⟨g1, g2, g3⟩
      exact ⟨by rw [g2, g3, hcons.1], by rw [g2, g1, hcons.2]⟩
  · exact ⟨rfl, rfl⟩
  · rcases d with ⟨df, dt⟩
    rcases df with _ | vecs
    · have hd : s.documents = [] ∧ s.metadata = [] := hsafe
      show consistent { s with index := some [] }
      constructor
      · show s.documents.length = s.metadata.length
        rw [hd.1, hd.2]
        rfl
      · show s.documents.length = ((some ([] : List Vec)).getD []).length
        rw [hd.1]
        rfl
    · rcases dt with _ | t
      · have hd : s.documents = [] ∧ s.metadata = [] := hsafe
        show consistent { s with index := some [] }
        constructor
        · show s.documents.length = s.metadata.length
          rw [hd.1, hd.2]
          rfl
        · show s.documents.length = ((some ([] : List Vec)).getD []).length
          rw [hd.1]
          rfl
      · have hd : vecs.length = t.1.length ∧ t.1.length = t.2.length := hsafe
        show consistent { s with index := some vecs, documents := t.1, metadata := t.2 }
        constructor
        · show t.1.length = t.2.length
          exact hd.2
        · show t.1.length = ((some vecs).getD []).length
          exact hd.1.symm

/-- Witness for store_counts_invariant at concrete inputs for all three
conjuncts. -/
theorem store_counts_invariant_witness :
    (consistent ⟨1, "p", some [], [], []⟩ ∧
      consistent (applyOp ⟨1, "p", some [], [], []⟩
        (StoreOp.addDocs (fun ts => .ok (ts.map (fun _ => [0]))) ["a"] none))) ∧
    (totalCount (addDocuments ⟨1, "p", some [], [], []⟩
        (fun ts => .ok (ts.map (fun _ => [0]))) ["a"] none).1 =
      totalCount ⟨1, "p", some [], [], []⟩ + 1) ∧
    (totalCount (addDocument ⟨1, "p", some [], [], []⟩
        (fun _ => .ok [0]) "a" none).1 = totalCount ⟨1, "p", some [], [], []⟩ + 1) := by
  have hsafe : opSafe ⟨1, "p", some [], [], []⟩
      (StoreOp.addDocs (fun ts => .ok (ts.map (fun _ => [0]))) ["a"] none) := by
    unfold opSafe
    refine ⟨?_, ?_⟩
    · intro l hl
      cases hl
    · intro embs h
      cases h
      rfl
  refine ⟨⟨⟨rfl, rfl⟩,
      store_counts_invariant.1 ⟨1, "p", some [], [], []⟩ _ ⟨rfl, rfl⟩ hsafe⟩,
    (store_counts_invariant.2.1 ⟨1, "p", some [], [], []⟩
      (fun ts => .ok (ts.map (fun _ => [0]))) ["a"] none [[0]] rfl rfl
      (fun l hl => by cases hl)).1,
    (store_counts_invariant.2.2 ⟨1, "p", some [], [], []⟩
      (fun _ => .ok [0]) "a" none [0] rfl).1⟩

/-- Counterexample to claim C1 as stated: add_documents called with two
texts but a metadatas list holding a single dict extends the metadata list
by one entry only, so after the call the three counts diverge (documents
2, metadata 1, index entries 2). -/
theorem store_counts_mismatch_cex :
    (addDocuments ⟨1, "p", some [], [], []⟩ (fun ts => .ok (ts.map (fun _ => [0])))
        ["a", "b"] (some [[("k", JVal.null)]])).1.documents.length = 2 ∧
    (addDocuments ⟨1, "p", some [], [], []⟩ (fun ts => .ok (ts.map (fun _ => [0])))
        ["a", "b"] (some [[("k", JVal.null)]])).1.metadata.length = 1 ∧
    totalCount (addDocuments ⟨1, "p", some [], [], []⟩
        (fun ts => .ok (ts.map (fun _ => [0])))
        ["a", "b"] (some [[("k", JVal.null)]])).1 = 2 ∧
    ¬ consistent (addDocuments ⟨1, "p", some [], [], []⟩
        (fun ts => .ok (ts.map (fun _ => [0])))
        ["a", "b"] (some [[("k", JVal.null)]])).1 := by
  refine ⟨rfl, rfl, rfl, ?_⟩
  intro hc
  have h12 : (2 : Nat) = 1 := hc.1
  exact absurd h12 (by decide)

/-! ## Record ingestion (DataIngestionPipeline.ingest_json_records) -/

/-- Python dict assignment d[k] = v on the ordered-association-list model:
overwrite the value in place when the key exists, append otherwise. -/
def dictSet (d : Metadata) (k : String) (v : JVal) : Metadata :=
  if d.any (fun kv => kv.1 == k) then
    d.map (fun kv => if kv.1 == k then (k, v) else kv)
  else d ++ [(k, v)]

/-- Text value of a record field (the ingestion format stores document
text as a JSON string). -/
def getTextD (r : Record) (tf : String) : String :=
  match r.lookup tf with
  | some (JVal.s t) => t
  | _ => ""

/-- Per-record metadata built by ingest_json_records: a dict seeded with
the record position under the record_index key, then extended from the
metadata_fields allow-list when that argument is truthy, and otherwise
from every record field other than the text field. -/
def buildMeta (idx : Nat) (r : Record) (tf : String) (mf : Option (List String)) :
    Metadata :=
  match mf with
  | some fields =>
    if fields.isEmpty then
      (r.filter (fun kv => !(kv.1 == tf))).foldl (fun m kv => dictSet m kv.1 kv.2)
        [("record_index", JVal.i idx)]
    else
      fields.foldl (fun m f =>
        match r.lookup f with
        | some v => dictSet m f v
        | none => m) [("record_index", JVal.i idx)]
  | none =>
    (r.filter (fun kv => !(kv.1 == tf))).foldl (fun m kv => dictSet m kv.1 kv.2)
      [("record_index", JVal.i idx)]

/-- The enumerate loop of ingest_json_records: skip records lacking the
text field, collect the text and the built metadata of the others. -/
def collectRecords (records : List Record) (tf : String) (mf : Option (List String)) :
    List String × List Metadata :=
  records.enum.foldl
    (fun acc p =>
      if (p.2.lookup tf).isSome then
        (acc.1 ++ [getTextD p.2 tf], acc.2 ++ [buildMeta p.1 p.2 tf mf])
      else acc)
    ([], [])

/-- ingest_json_records: one bulk add_documents call on the survivors. -/
def ingestJsonRecords (s : VectorStore)
    (enc : List String → Except EncError (List Vec)) (records : List Record)
    (tf : String) (mf : Option (List String)) : VectorStore × Option EncError :=
  addDocuments s enc (collectRecords records tf mf).1
    (some (collectRecords records tf mf).2)

lemma collect_go (tf : String) (mf : Option (List String)) :
    ∀ (l : List Record) (n : Nat) (acc : List String × List Metadata),
      (List.enumFrom n l).foldl
        (fun acc p =>
          if (p.2.lookup tf).isSome then
            (acc.1 ++ [getTextD p.2 tf], acc.2 ++ [buildMeta p.1 p.2 tf mf])
          else acc) acc =
      (acc.1 ++ ((List.enumFrom n l).filter (fun p => (p.2.lookup tf).isSome)).map
          (fun p => getTextD p.2 tf),
        acc.2 ++ ((List.enumFrom n l).filter (fun p => (p.2.lookup tf).isSome)).map
          (fun p => buildMeta p.1 p.2 tf mf)) := by
  intro l
  induction l with
  | nil => intro n acc; simp
  | cons r l ih =>
    intro n acc
    rw [List.enumFrom_cons, List.foldl_cons, List.filter_cons]
    by_cases hp : (r.lookup tf).isSome = true
    · rw [if_pos hp]
      rw [ih (n + 1) (acc.1 ++ [getTextD r tf], acc.2 ++ [buildMeta n r tf mf])]
      simp [hp]
    · rw [if_neg hp, ih (n + 1) acc]
      simp [hp]

lemma enumFrom_filter_map_snd {α β : Type} (P : α → Bool) (f : α → β) :
    ∀ (l : List α) (n : Nat),
      ((List.enumFrom n l).filter (fun p => P p.2)).map (fun p => f p.2) =
        (l.filter P).map f := by
  intro l
  induction l with
  | nil => intro n; rfl
  | cons a l ih =>
    intro n
    rw [List.enumFrom_cons, List.filter_cons, List.filter_cons]
    by_cases hp : P a = true
    · simp only [hp, if_pos]
      rw [List.map_cons, List.map_cons, ih (n + 1)]
    · have hb : P a = false := by
        cases hP : P a
        · rfl
        · exact absurd hP hp
      simp only [hb, Bool.false_eq_true, if_false]
      rw [ih (n + 1)]

lemma dictSet_head (m : Metadata) (k : String) (v : JVal) (hm : m ≠ []) :
    (dictSet m k v).head?.map Prod.fst = m.head?.map Prod.fst ∧
      dictSet m k v ≠ [] := by
  unfold dictSet
  by_cases hany : m.any (fun kv => kv.1 == k) = true
  · rw [if_pos hany]
    rcases m with _ | ⟨⟨k0, v0⟩, rest⟩
    · exact absurd rfl hm
    · simp only [List.map_cons, List.head?_cons]
      constructor
      · by_cases hk : (k0 == k) = true
        · rw [if_pos hk]
          have hkk : k0 = k := eq_of_beq hk
          simp [hkk]
        · rw [if_neg hk]
      · simp
  · rw [if_neg hany]
    rcases m with _ | ⟨a, rest⟩
    · exact absurd rfl hm
    · exact ⟨by simp, by simp⟩

lemma foldl_dictSet_head (l : List (String × JVal)) :
    ∀ m : Metadata, m ≠ [] →
      (l.foldl (fun m kv => dictSet m kv.1 kv.2) m).head?.map Prod.fst =
          m.head?.map Prod.fst ∧
        l.foldl (fun m kv => dictSet m kv.1 kv.2) m ≠ [] := by
  induction l with
  | nil => intro m hm; exact ⟨rfl, hm⟩
  | cons kv l ih =>
    intro m hm
    rw [List.foldl_cons]
    rcases dictSet_head m kv.1 kv.2 hm with ⟨h1, h2⟩
    rcases ih (dictSet m kv.1 kv.2) h2 with ⟨h3, h4⟩
    exact ⟨h3.trans h1, h4⟩

lemma foldl_lookupSet_head (r : Record) (fs : List String) :
    ∀ m : Metadata, m ≠ [] →
      (fs.foldl (fun m f =>
          match r.lookup f with
          | some v => dictSet m f v
          | none => m) m).head?.map Prod.fst = m.head?.map Prod.fst ∧
        fs.foldl (fun m f =>
          match r.lookup f with
          | some v => dictSet m f v
          | none => m) m ≠ [] := by
  induction fs with
  | nil => intro m hm; exact ⟨rfl, hm⟩
  | cons f fs ih =>
    intro m hm
    rw [List.foldl_cons]
    rcases hf : r.lookup f with _ | v
    · exact ih m hm
    · rcases dictSet_head m f v hm with ⟨h1, h2⟩
      rcases ih (dictSet m f v) h2 with ⟨h3, h4⟩
      exact ⟨h3.trans h1, h4⟩

lemma dictSet_fresh (m : Metadata) (k : String) (v : JVal)
    (h : ∀ q ∈ m, q.1 ≠ k) : dictSet m k v = m ++ [(k, v)] := by
  unfold dictSet
  have hany : m.any (fun kv => kv.1 == k) = false := by
    rw [List.any_eq_false]
    intro x hx
    simp only [beq_iff_eq]
    exact h x hx
  simp only [hany, Bool.false_eq_true, if_false]

lemma foldl_dictSet_fresh :
    ∀ (ps : List (String × JVal)) (m : Metadata),
      (∀ p ∈ ps, ∀ q ∈ m, p.1 ≠ q.1) → ps.Pairwise (fun a b => a.1 ≠ b.1) →
      ps.foldl (fun m kv => dictSet m kv.1 kv.2) m = m ++ ps := by
  intro ps
  induction ps with
  | nil => intro m _ _; simp
  | cons p ps ih =>
    intro m hfresh hpw
    rw [List.foldl_cons,
      dictSet_fresh m p.1 p.2 (fun q hq => (hfresh p (List.mem_cons_self p ps) q hq).symm)]
    rw [ih (m ++ [p]) ?hf ?hp]
    · simp
    case hf =>
      intro x hx q hq
      rcases List.mem_append.mp hq with hq | hq
      · exact hfresh x (List.mem_cons_of_mem p hx) q hq
      · have hqp : q = p := List.mem_singleton.mp hq
        rw [hqp]
        exact ((List.pairwise_cons.mp hpw).1 x hx).symm
    case hp => exact (List.pairwise_cons.mp hpw).2

lemma foldl_lookupSet_fresh (r : Record) :
    ∀ (fs : List String) (m : Metadata),
      fs.Nodup → (∀ f ∈ fs, ∀ q ∈ m, f ≠ q.1) →
      fs.foldl (fun m f =>
          match r.lookup f with
          | some v => dictSet m f v
          | none => m) m =
        m ++ fs.filterMap (fun f => (r.lookup f).map (fun v => (f, v))) := by
  intro fs
  induction fs with
  | nil => intro m _ _; simp
  | cons f fs ih =>
    intro m hnd hfresh
    rw [List.foldl_cons, List.filterMap_cons]
    rcases hf : r.lookup f with _ | v
    · exact ih m (List.nodup_cons.mp hnd).2
        (fun g hg q hq => hfresh g (List.mem_cons_of_mem f hg) q hq)
    · dsimp only
      rw [dictSet_fresh m f v
        (fun q hq => (hfresh f (List.mem_cons_self f fs) q hq).symm)]
      rw [ih (m ++ [(f, v)]) (List.nodup_cons.mp hnd).2 ?hf2]
      · simp
      case hf2 =>
        intro g hg q hq
        rcases List.mem_append.mp hq with hq | hq
        · exact hfresh g (List.mem_cons_of_mem f hg) q hq
        · have hqp : q = (f, v) := List.mem_singleton.mp hq
          rw [hqp]
          intro hc
          have hgf : g = f := hc
          exact (List.nodup_cons.mp hnd).1 (hgf ▸ hg)

/-- Claim C8 (amended): ingest_json_records skips exactly the records
lacking the text field, keeping the original positions; it builds each
surviving record metadata as a dict whose first entry is always
record_index mapped to the record position, extended by the allow-list
fields found in the record when metadata_fields is supplied non-empty,
and by all record fields except the text field otherwise; it issues
exactly one bulk add_documents call for the whole batch; and on a batch
of five records where the second lacks the text field it ingests exactly
four documents. -/
theorem ingest_records_spec :
    (∀ (records : List Record) (tf : String) (mf : Option (List String)),
      (collectRecords records tf mf).1 =
        (records.filter (fun r => (r.lookup tf).isSome)).map (fun r => getTextD r tf)) ∧
    (∀ (records : List Record) (tf : String) (mf : Option (List String)),
      (collectRecords records tf mf).2 =
        (records.enum.filter (fun p => (p.2.lookup tf).isSome)).map
          (fun p => buildMeta p.1 p.2 tf mf)) ∧
    (∀ (s : VectorStore) (enc : List String → Except EncError (List Vec))
      (records : List Record) (tf : String) (mf : Option (List String)),
      ingestJsonRecords s enc records tf mf =
        addDocuments s enc (collectRecords records tf mf).1
          (some (collectRecords records tf mf).2)) ∧
    (∀ (idx : Nat) (r : Record) (tf : String) (mf : Option (List String)),
      (buildMeta idx r tf mf).head?.map Prod.fst = some "record_index") ∧
    (∀ (idx : Nat) (r : Record) (tf : String),
      (∀ p ∈ r, p.1 ≠ "record_index") → r.Pairwise (fun a b => a.1 ≠ b.1) →
      buildMeta idx r tf none =
        ("record_index", JVal.i idx) :: r.filter (fun kv => !(kv.1 == tf))) ∧
    (∀ (idx : Nat) (r : Record) (tf : String) (fields : List String),
      ¬ fields.isEmpty → fields.Nodup → "record_index" ∉ fields →
      buildMeta idx r tf (some fields) =
        ("record_index", JVal.i idx) ::
          fields.filterMap (fun f => (r.lookup f).map (fun v => (f, v)))) ∧
    ((collectRecords
        [[("text", JVal.s "t0")], [("a", JVal.s "x")], [("text", JVal.s "t2")],
          [("text", JVal.s "t3")], [("text", JVal.s "t4")]] "text" none).1.length = 4 ∧
      (ingestJsonRecords ⟨1, "p", some [], [], []⟩
        (fun ts => .ok (ts.map (fun _ => [0])))
        [[("text", JVal.s "t0")], [("a", JVal.s "x")], [("text", JVal.s "t2")],
          [("text", JVal.s "t3")], [("text", JVal.s "t4")]]
        "text" none).1.documents.length = 4) := by
  have hgo := collect_go
  refine ⟨?_, ?_, ?_, ?_, ?_, ?_, by decide, by decide⟩
  · intro records tf mf
    show ((List.enumFrom 0 records).foldl _ ([], [])).1 = _
    rw [hgo tf mf records 0 ([], [])]
    show ((List.enumFrom 0 records).filter (fun p => (p.2.lookup tf).isSome)).map
        (fun p => getTextD p.2 tf) = _
    exact enumFrom_filter_map_snd (fun r => (r.lookup tf).isSome)
      (fun r => getTextD r tf) records 0
  · intro records tf mf
    show ((List.enumFrom 0 records).foldl _ ([], [])).2 = _
    rw [hgo tf mf records 0 ([], [])]
    rfl
  · intro s enc records tf mf
    rfl
  · intro idx r tf mf
    unfold buildMeta
    rcases mf with _ | fields
    · exact (foldl_dictSet_head (r.filter (fun kv => !(kv.1 == tf)))
        [("record_index", JVal.i idx)] (by simp)).1
    · dsimp only
      by_cases hf : fields.isEmpty
      · rw [if_pos hf]
        exact (foldl_dictSet_head (r.filter (fun kv => !(kv.1 == tf)))
          [("record_index", JVal.i idx)] (by simp)).1
      · rw [if_neg hf]
        exact (foldl_lookupSet_head r fields
          [("record_index", JVal.i idx)] (by simp)).1
  · intro idx r tf h1 h2
    unfold buildMeta
    rw [foldl_dictSet_fresh (r.filter (fun kv => !(kv.1 == tf)))
      [("record_index", JVal.i idx)] ?hfr ?hpw]
    · rfl
    case hfr =>
      intro p hp q hq
      have hq2 : q = ("record_index", JVal.i idx) := List.mem_singleton.mp hq
      rw [hq2]
      exact h1 p (List.mem_filter.mp hp).1
    case hpw => exact List.Pairwise.sublist (List.filter_sublist r) h2
  · intro idx r tf fields hne hnd hri
    unfold buildMeta
    dsimp only
    rw [if_neg hne]
    rw [foldl_lookupSet_fresh r fields [("record_index", JVal.i idx)] hnd ?hfr]
    · rfl
    case hfr =>
      intro f hf q hq
      have hq2 : q = ("record_index", JVal.i idx) := List.mem_singleton.mp hq
      rw [hq2]
      intro hc
      have hcf : f = "record_index" := hc
      exact hri (hcf ▸ hf)

/-- Witness for ingest_records_spec: the two hypothesis-bearing conjuncts
applied to a concrete two-field record. -/
theorem ingest_records_spec_witness :
    ((∀ p ∈ ([("text", JVal.s "t"), ("a", JVal.s "v")] : Record),
        p.1 ≠ "record_index") ∧
      ([("text", JVal.s "t"), ("a", JVal.s "v")] : Record).Pairwise
        (fun a b => a.1 ≠ b.1) ∧
      buildMeta 0 [("text", JVal.s "t"), ("a", JVal.s "v")] "text" none =
        ("record_index", JVal.i 0) ::
          ([("text", JVal.s "t"), ("a", JVal.s "v")] : Record).filter
            (fun kv => !(kv.1 == "text"))) ∧
    (¬ (["a"] : List String).isEmpty ∧ (["a"] : List String).Nodup ∧
      "record_index" ∉ (["a"] : List String) ∧
      buildMeta 1 [("text", JVal.s "t"), ("a", JVal.s "v")] "text" (some ["a"]) =
        ("record_index", JVal.i 1) ::
          (["a"] : List String).filterMap
            (fun f => (([("text", JVal.s "t"), ("a", JVal.s "v")] : Record).lookup
              f).map (fun v => (f, v)))) :=
  ⟨⟨by decide, by decide,
      ingest_records_spec.2.2.2.2.1 0 [("text", JVal.s "t"), ("a", JVal.s "v")]
        "text" (by decide) (by decide)⟩,
    by decide, by decide, by decide,
    ingest_records_spec.2.2.2.2.2.1 1 [("text", JVal.s "t"), ("a", JVal.s "v")]
      "text" ["a"] (by decide) (by decide) (by decide)⟩

/-- Counterexample to claim C8 as stated: with the explicit allow-list
["a"], the metadata built for a record also contains a record_index entry,
a key that is neither in the allow-list nor in the record. -/
theorem ingest_records_metadata_cex :
    (collectRecords [[("text", JVal.s "t"), ("a", JVal.s "v")]] "text"
        (some ["a"])).2 = [[("record_index", JVal.i 0), ("a", JVal.s "v")]] ∧
    "record_index" ∉ (["a"] : List String) ∧
    ([("text", JVal.s "t"), ("a", JVal.s "v")] : Record).lookup "record_index" =
      none := by
  refine ⟨by decide, by decide, by decide⟩

end BigContest
